import Mathlib

/-!
Verification of the music library organizer (`src/main.py`) against its
specification.  Python strings are modelled as lists of Unicode code points
(`List Nat`), so that surrogate code points and case mapping behave like
CPython's `str`.  Paths are modelled as lists of path segments, mirroring
`pathlib.PurePath`'s parsed parts.  Every definition below is translated
from the source; the doc comment of each definition names the Python
function or lines it embeds.
-/

/-- A Python string: a finite sequence of Unicode code points. -/
abbrev Str := List Nat

/-- Code points of a Lean string literal, used to write concrete inputs. -/
def toCodes (s : String) : Str := s.data.map Char.toNat

/-- The set of code points that CPython's `str.strip()` (and `re`'s `\s`
in Unicode mode) treats as whitespace. -/
def pyWs (a : Nat) : Bool :=
  (9 ≤ a && a ≤ 13) || (28 ≤ a && a ≤ 31) || a == 32 || a == 133 || a == 160 ||
  a == 5760 || (8192 ≤ a && a ≤ 8202) || a == 8232 || a == 8233 ||
  a == 8239 || a == 8287 || a == 12288

/-- Python `s.strip(chars)` for a one-class predicate: drop matching code
points from both ends. -/
def pyStrip (p : Nat → Bool) (l : Str) : Str :=
  ((l.dropWhile p).reverse.dropWhile p).reverse

/-- Python `s.strip()` (strip whitespace from both ends). -/
def stripWs (l : Str) : Str := pyStrip pyWs l

/-- Python `s.strip('.')` (strip `.` from both ends);
`main.py` line 103. -/
def stripDot (l : Str) : Str := pyStrip (fun a => a == 46) l

/-- Python `s.rstrip(',')` (drop trailing commas); `main.py` line 47. -/
def rstripComma (l : Str) : Str := (l.reverse.dropWhile (fun a => a == 44)).reverse

/-- Hex digit class `[0-9a-fA-F]` of the escape regexes in
`decode_unicode_escapes` (`main.py` lines 89 and 91). -/
def isHex (a : Nat) : Bool :=
  (48 ≤ a && a ≤ 57) || (97 ≤ a && a ≤ 102) || (65 ≤ a && a ≤ 70)

/-- Value of one hex digit. -/
def hexVal (a : Nat) : Nat :=
  if a ≤ 57 then a - 48 else if a ≤ 70 then a - 55 else a - 87

/-- Value of a 4-hex-digit group. -/
def hexNum (a b c d : Nat) : Nat :=
  ((hexVal a * 16 + hexVal b) * 16 + hexVal c) * 16 + hexVal d

/-- One `re.sub(r'\\M([0-9a-fA-F]{4})', chr, s)` pass with marker letter
`mk` (`M` is `U` or `u`): scan left to right; at a backslash followed by
the marker and four hex digits, emit the decoded code point and continue
after the consumed six characters, otherwise emit the current character
and continue (`main.py` lines 84-91).  `isEscAt` recognises the
marker-plus-four-hex-digits tail of an escape. -/
def isEscAt (mk : Nat) : Str → Bool
  | m :: b :: c :: d :: e :: _ => m == mk && isHex b && isHex c && isHex d && isHex e
  | _ => false

/-- The decoded code point of a recognised escape tail. -/
def escVal : Str → Nat
  | _ :: b :: c :: d :: e :: _ => hexNum b c d e
  | _ => 0

def subEscF (mk : Nat) : Nat → Str → Str
  | 0, l => l
  | _ + 1, [] => []
  | fuel + 1, a :: rest =>
    if a == 92 && isEscAt mk rest then escVal rest :: subEscF mk fuel (rest.drop 5)
    else a :: subEscF mk fuel rest

/-- Entry point of one substitution pass; the fuel `l.length` is enough
because every step consumes at least one character. -/
def subEsc (mk : Nat) (l : Str) : Str := subEscF mk l.length l

/-- `decode_unicode_escapes` (`main.py` lines 81-92): first the `\UXXXX`
pass, then the `\uXXXX` pass on its result. -/
def decode_unicode_escapes (s : Str) : Str := subEsc 117 (subEsc 85 s)

/-- Python `s.replace(c, r)` for a single-character needle `c`: each
occurrence of `c` is replaced by the (possibly empty) string `r`. -/
def pyReplace1 (c : Nat) (r : Str) : Str → Str
  | [] => []
  | a :: t => (if a = c then r else [a]) ++ pyReplace1 c r t

/-- The character-cleaning loop of `sanitize` (`main.py` lines 101-102):
the nine replaces, in source order `/ \ : * ? " < > |`; characters in
`/\:|` become `-`, the rest are deleted. -/
def sanitizeRepl (l : Str) : Str :=
  pyReplace1 124 [45] (pyReplace1 62 [] (pyReplace1 60 [] (pyReplace1 34 []
    (pyReplace1 63 [] (pyReplace1 42 [] (pyReplace1 58 [45]
      (pyReplace1 92 [45] (pyReplace1 47 [45] l))))))))

/-- `sanitize` (`main.py` lines 95-103): decode unicode escapes, apply the
nine character replaces, then `.strip().strip('.')`. -/
def sanitize (name : Str) : Str :=
  stripDot (stripWs (sanitizeRepl (decode_unicode_escapes name)))

/-- ASCII lowercasing of a code point (`A`-`Z` to `a`-`z`).  Python's
`str.lower()` and `re.IGNORECASE` also fold some non-ASCII letters; the
strings compared by the program (`yes`, the separator words) are ASCII,
so only the ASCII fold is modelled. -/
def asciiLower (a : Nat) : Nat := if 65 ≤ a ∧ a ≤ 90 then a + 32 else a

/-- Python `s.lower()` under the ASCII model. -/
def lowerStr (l : Str) : Str := l.map asciiLower

/-- Does `w` (already lowercase) match the beginning of `l`
case-insensitively? -/
def begCI : Str → Str → Bool
  | [], _ => true
  | _ :: _, [] => false
  | p :: ps, a :: t => asciiLower a == p && begCI ps t

/-- After the separator word: `\s+` must follow, or (when the pattern has
`\.?`) a dot followed by `\s+`. -/
def tailOk (dotOpt : Bool) : Str → Bool
  | [] => false
  | b :: t =>
    pyWs b || (dotOpt && b == 46 && (match t with | c :: _ => pyWs c | [] => false))

/-- Does a match of `\s+WORD\.?\s+` (with `\.?` only when `dotOpt`) start
exactly at the head of `l`?  `re` needs one or more whitespace characters,
then the word (case-insensitively), then the optional dot, then one or
more whitespace characters; `w` is the word in lowercase code points. -/
def matchWordAt (w : Str) (dotOpt : Bool) (l : Str) : Bool :=
  match l with
  | [] => false
  | a :: _ =>
    pyWs a && (let r := l.dropWhile pyWs
               begCI w r && tailOk dotOpt (r.drop w.length))

/-- Does a match of `\s*SYM\s*` start exactly at the head of `l`?  The
leading `\s*` may consume zero or more whitespace characters, then the
symbol must appear. -/
def matchSymAt (sym : Nat) (l : Str) : Bool :=
  match l.dropWhile pyWs with
  | b :: _ => b == sym
  | [] => false

/-- `parts[0]` of `re.split(pattern, s)`: the prefix of `s` before the
leftmost position at which a match of the pattern starts, or all of `s`
when the pattern matches nowhere. -/
def truncAt (m : Str → Bool) : Str → Str
  | [] => []
  | a :: t => if m (a :: t) then [] else a :: truncAt m t

/-- `get_main_artist` (`main.py` lines 106-126): split on the seven
patterns in source order - `\s+ft\.?\s+`, `\s+feat\.?\s+`,
`\s+featuring\s+`, `\s+with\s+`, `\s+x\s+`, `\s*&\s*`, `\s*,\s*` - each
time keeping only the part before the first match, then strip the
result. -/
def get_main_artist (artist : Str) : Str :=
  stripWs (truncAt (matchSymAt 44) (truncAt (matchSymAt 38)
    (truncAt (matchWordAt (toCodes "x") false)
      (truncAt (matchWordAt (toCodes "with") false)
        (truncAt (matchWordAt (toCodes "featuring") false)
          (truncAt (matchWordAt (toCodes "feat") true)
            (truncAt (matchWordAt (toCodes "ft") true) artist)))))))

/-- `TrackMetadata`: the `data` dict built by `get_metadata`
(`main.py` line 28).  `none` models Python's `None`. -/
structure TrackMeta where
  artist : Option Str
  album : Option Str
  title : Option Str
  track : Option Nat
deriving DecidableEq

/-- Decimal digits of `n`, as code points (Python `str(n)` for `n ≥ 0`). -/
def natDigits (n : Nat) : Str := (Nat.toDigits 10 n).map Char.toNat

/-- Python `f"{n:02d}"` for `n ≥ 0`: pad with one leading zero below 10. -/
def pad2 (n : Nat) : Str := if n < 10 then 48 :: natDigits n else natDigits n

/-- `pathlib.PurePath.suffix` of a file name: the part from the last dot
on, provided that dot is neither the first nor the last character,
otherwise the empty string. -/
def nameSuffix (n : Str) : Str :=
  match (n.reverse.takeWhile (fun a => !(a == 46))).length, n.length with
  | k, len => if k + 1 < len && 0 < k then n.drop (len - (k + 1)) else []

/-- A filesystem path, as the list of its parsed segments
(`pathlib` parts, root omitted). -/
abbrev MPath := List Str

/-- `pathlib`'s `/` for one segment: joining with an empty string adds no
component (the segments joined by the program contain no separator, since
`sanitize` replaces `/` and `\`). -/
def pathApp (p : MPath) (s : Str) : MPath := if s.isEmpty then p else p ++ [s]

/-- `f.suffix` for a path: suffix of its last segment. -/
def suffixOf (p : MPath) : Str :=
  match p.getLast? with
  | some n => nameSuffix n
  | none => []

/-- The file name built at `main.py` lines 186-189:
`f"{track:02d} - {title}{ext}"` when `meta["track"]` is truthy (a present
nonzero integer), else `f"{title}{ext}"`. -/
def filenameOf (track : Option Nat) (title' ext : Str) : Str :=
  match track with
  | some n => if n = 0 then title' ++ ext else pad2 n ++ toCodes " - " ++ title' ++ ext
  | none => title' ++ ext

/-- The `target` of `main.py` line 191:
`MUSIC_ROOT / sanitize(get_main_artist(artist)) / sanitize(album) / filename`. -/
def targetOf (root f : MPath) (ar al ti : Str) (track : Option Nat) : MPath :=
  pathApp (pathApp (pathApp root (sanitize (get_main_artist ar))) (sanitize al))
    (filenameOf track (sanitize ti) (suffixOf f))

/-- One iteration of the planning loop (`main.py` lines 172-197) for file
`f` with extracted metadata `m`, against the plan-time filesystem
existence predicate `ex`: returns the move appended (if any) and the
amount added to `skipped`.  `not (meta["artist"] and meta["album"] and
meta["title"])` is Python truthiness: a field that is `None` or the empty
string fails the gate and the file is counted as skipped; otherwise the
target is built, and if `f == target or target.exists()` the file is
silently dropped (no move, no skip). -/
def planStep (root : MPath) (ex : MPath → Bool) (f : MPath) (m : TrackMeta) :
    Option (MPath × MPath) × Nat :=
  match m.artist, m.album, m.title with
  | some ar, some al, some ti =>
    if ar = [] ∨ al = [] ∨ ti = [] then (none, 1)
    else if f = targetOf root f ar al ti m.track ∨ ex (targetOf root f ar al ti m.track)
    then (none, 0)
    else (some (f, targetOf root f ar al ti m.track), 0)
  | _, _, _ => (none, 1)

/-- The whole planning loop (`main.py` lines 165-197): fold `planStep`
over the scanned files, accumulating `moves` in order and `skipped`. -/
def plan (root : MPath) (ex : MPath → Bool) : List (MPath × TrackMeta) →
    List (MPath × MPath) × Nat
  | [] => ([], 0)
  | (f, m) :: rest =>
    ((match (planStep root ex f m).1 with
      | some v => v :: (plan root ex rest).1
      | none => (plan root ex rest).1),
     (planStep root ex f m).2 + (plan root ex rest).2)

/-- Outcome of the tail of `main` (`main.py` lines 202-231): which moves
the apply phase performed, and whether the `remove_empty_folders` prune
pass ran. -/
structure TailResult where
  applied : List (MPath × MPath)
  pruned : Bool
deriving DecidableEq

/-- The tail of `main` (`main.py` lines 202-231).  With no moves there is
no prompt and the prune pass runs.  Otherwise the confirmation line is
read; if `response.strip().lower() == "yes"` the moves are applied and
then the prune pass runs; any other response prints `Cancelled.` and
returns from `main` before the prune pass. -/
def mainTail (moves : List (MPath × MPath)) (resp : Str) : TailResult :=
  if moves = [] then ⟨[], true⟩
  else if lowerStr (stripWs resp) = toCodes "yes" then ⟨moves, true⟩
  else ⟨[], false⟩

/-- Does `n` match the beginning of `h` exactly? -/
def begs : Str → Str → Bool
  | [], _ => true
  | _ :: _, [] => false
  | a :: t, b :: u => a == b && begs t u

/-- Python's `n in h` substring test. -/
def hasSub (n : Str) : Str → Bool
  | [] => n.isEmpty
  | b :: t => begs n (b :: t) || hasSub n t

/-- Index of the first occurrence of `c` in `l`, if any. -/
def firstIdx (c : Nat) : Str → Option Nat
  | [] => none
  | a :: t => if a = c then some 0 else (firstIdx c t).map (· + 1)

/-- Index of the last occurrence of `c` in `l`, if any. -/
def lastIdx (c : Nat) (l : Str) : Option Nat :=
  (firstIdx c l.reverse).map (fun i => l.length - 1 - i)

/-- `re.search(r'"(.+)"', s).group(1)` on a single line (`main.py`
line 41): the leftmost match opens at the first `"` that still has a
closing `"` at least two positions later, and the greedy `.+` runs to the
last `"` of the line; `none` when there is no match. -/
def quoted (l : Str) : Option Str :=
  match firstIdx 34 l, lastIdx 34 l with
  | some f, some L => if f + 2 ≤ L then some ((l.drop (f + 1)).take (L - (f + 1))) else none
  | _, _ => none

/-- `re.search(r'=\s*"(.+)"', s).group(1)` (`main.py` lines 52 and 56):
scan for the leftmost `=` whose following whitespace run is followed by a
`"` that still has a closing `"` with at least one character in between;
the greedy `.+` runs to the last `"` after the opening one. -/
def eqQuoted : Str → Option Str
  | [] => none
  | a :: t =>
    if a = 61 then
      match t.dropWhile pyWs with
      | 34 :: s =>
        match lastIdx 34 s with
        | some p => if 1 ≤ p then some (s.take p) else eqQuoted t
        | none => eqQuoted t
      | _ => eqQuoted t
    else eqQuoted t

/-- Decimal value of a digit run. -/
def digitsToNat (ds : Str) : Nat := ds.foldl (fun acc d => acc * 10 + (d - 48)) 0

/-- Digit class `\d` restricted to ASCII digits (the `mdls` output the
program parses is ASCII here). -/
def isDigit (a : Nat) : Bool := 48 ≤ a && a ≤ 57

/-- `int(re.search(r'=\s*(\d+)', s).group(1))` (`main.py` lines 60-62):
leftmost `=` followed by optional whitespace and at least one digit; the
greedy `\d+` takes the whole digit run. -/
def eqInt : Str → Option Nat
  | [] => none
  | a :: t =>
    if a = 61 then
      match (t.dropWhile pyWs).takeWhile isDigit with
      | [] => eqInt t
      | ds => some (digitsToNat ds)
    else eqInt t

/-- Python `s.split("\n")`. -/
def splitNl (l : Str) : List Str :=
  l.foldr
    (fun a acc =>
      if a = 10 then [] :: acc
      else match acc with
        | h :: t => (a :: h) :: t
        | [] => [[a]])
    [[]]

/-- `"kMDItemAuthors"`. -/
def kAuthors : Str := toCodes "kMDItemAuthors"
/-- `"kMDItemAlbum"`. -/
def kAlbum : Str := toCodes "kMDItemAlbum"
/-- `"kMDItemTitle"`. -/
def kTitle : Str := toCodes "kMDItemTitle"
/-- `"kMDItemAudioTrackNumber"`. -/
def kTrack : Str := toCodes "kMDItemAudioTrackNumber"
/-- `"(null)"`. -/
def kNull : Str := toCodes "(null)"

/-- The artist value extracted from the line after a `kMDItemAuthors`
line (`main.py` lines 39-49): strip the line; if a quoted string is
found its content is the artist; otherwise the line minus trailing commas
and whitespace is used verbatim unless it is empty or exactly `)`. -/
def artistFrom (d : TrackMeta) (next : Str) : TrackMeta :=
  match quoted (stripWs next) with
  | some g => ⟨some g, d.album, d.title, d.track⟩
  | none =>
    match stripWs (rstripComma (stripWs next)) with
    | [] => d
    | a :: t => if a :: t = [41] then d else ⟨some (a :: t), d.album, d.title, d.track⟩

mutual

/-- The `while i < len(lines)` parsing loop of `get_metadata` (`main.py`
lines 31-63).  The `elif` chain tests substring containment of the four
keys in order; an authors line that is not `(null)` and contains `(`
consumes the following line as well (`i += 1`). -/
def mdLoop : TrackMeta → List Str → TrackMeta
  | d, [] => d
  | d, line :: rest =>
    if hasSub kAuthors line then
      if !hasSub kNull line && hasSub [40] line then mdAuthors d rest
      else mdLoop d rest
    else if hasSub kAlbum line then
      mdLoop (match eqQuoted line with
              | some g => ⟨d.artist, some g, d.title, d.track⟩
              | none => d) rest
    else if hasSub kTitle line then
      mdLoop (match eqQuoted line with
              | some g => ⟨d.artist, d.album, some g, d.track⟩
              | none => d) rest
    else if hasSub kTrack line then
      mdLoop (match eqInt line with
              | some n => ⟨d.artist, d.album, d.title, some n⟩
              | none => d) rest
    else mdLoop d rest

/-- The `i += 1` lookahead of the authors branch (`main.py` lines 38-50):
when a next line exists, the artist is taken from it and the loop resumes
after it; at the end of the output nothing is assigned. -/
def mdAuthors (d : TrackMeta) : List Str → TrackMeta
  | [] => d
  | next :: rest2 => mdLoop (artistFrom d next) rest2

end

/-- `get_metadata` (`main.py` lines 18-67).  The input is `none` when the
`subprocess.run` call raises (including the 5-second
`subprocess.TimeoutExpired`), in which case the `except Exception` branch
returns the all-`None` record; otherwise it is the raw `result.stdout`,
which is stripped, split on newlines and fed to the parsing loop starting
from the all-`None` record.  The function is total: no error reaches the
caller. -/
def get_metadata (stdout? : Option Str) : TrackMeta :=
  match stdout? with
  | none => ⟨none, none, none, none⟩
  | some out => mdLoop ⟨none, none, none, none⟩ (splitNl (stripWs out))

/-- A filesystem subtree: a named file or a named directory with its
entries. -/
inductive FSE where
  | file : Str → FSE
  | dir : Str → List FSE → FSE

/-- `item.suffix.lower() in SUPPORTED_EXTENSIONS` (`main.py` lines 14 and
141): case-insensitive test for the `.mp3` / `.flac` extensions. -/
def isMusic (n : Str) : Bool :=
  lowerStr (nameSuffix n) = toCodes ".mp3" || lowerStr (nameSuffix n) = toCodes ".flac"

mutual

/-- The `path.rglob('*')` scan of `remove_empty_folders` (`main.py` lines
139-143): does the subtree contain a file with a supported audio
extension? -/
def hasMusicE : FSE → Bool
  | .file n => isMusic n
  | .dir _ cs => hasMusicL cs

/-- `hasMusicE` over a list of entries. -/
def hasMusicL : List FSE → Bool
  | [] => false
  | e :: t => hasMusicE e || hasMusicL t

end

mutual

/-- One directory visit of `remove_empty_folders` (`main.py` lines
129-152) on the subtree `e` whose parent path is `path`, under the
failure oracle `fails` (which directories' `shutil.rmtree` raises
`OSError`).  `os.walk(root, topdown=False)` visits children before their
parent, so the children are processed first; then, if the remaining
subtree has no music file, `shutil.rmtree` removes it (result `none`) and
`removed` is incremented, unless the deletion fails, in which case the
exception is swallowed, the directory stays and nothing is counted (a
failed `rmtree` may in reality have deleted some of the non-music
contents; the model keeps the subtree whole, which does not affect any
later music check because only music-free subtrees are ever deleted
from).
Files are never visited.  Returns the remaining subtree and the number of
directories removed in it. -/
def pruneE (fails : List Str → Bool) (path : List Str) : FSE → Option FSE × Nat
  | .file n => (some (.file n), 0)
  | .dir n cs =>
    if hasMusicE (.dir n ((pruneL fails (path ++ [n]) cs).1)) then
      (some (.dir n ((pruneL fails (path ++ [n]) cs).1)),
       (pruneL fails (path ++ [n]) cs).2)
    else if fails (path ++ [n]) then
      (some (.dir n ((pruneL fails (path ++ [n]) cs).1)),
       (pruneL fails (path ++ [n]) cs).2)
    else (none, (pruneL fails (path ++ [n]) cs).2 + 1)

/-- `pruneE` over the entries of one directory. -/
def pruneL (fails : List Str → Bool) (path : List Str) : List FSE → List FSE × Nat
  | [] => ([], 0)
  | e :: t =>
    ((match (pruneE fails path e).1 with
      | some e' => e' :: (pruneL fails path t).1
      | none => (pruneL fails path t).1),
     (pruneE fails path e).2 + (pruneL fails path t).2)

end

/-- `remove_empty_folders(MUSIC_ROOT)` (`main.py` lines 129-152): the
bottom-up walk skips the root itself (`if dirpath == str(root):
continue`), so only the root's strict descendants are visited; returns
the surviving entries of the root and the count of removed folders. -/
def remove_empty_folders (fails : List Str → Bool) (rootName : Str)
    (rootEntries : List FSE) : List FSE × Nat :=
  pruneL fails [rootName] rootEntries

/-- `nm` is the name of a file somewhere in the subtree `e`. -/
inductive FileInTree : Str → FSE → Prop
  | file (n : Str) : FileInTree n (.file n)
  | dir {n : Str} {e : FSE} (m : Str) {cs : List FSE} :
      e ∈ cs → FileInTree n e → FileInTree n (.dir m cs)

/-- Can the `kMDItemAlbum` branch of the parsing loop assign the album
from this line?  (`main.py` lines 51-54.) -/
def canSetAlbum (line : Str) : Bool := hasSub kAlbum line && (eqQuoted line).isSome

/-- Can the `kMDItemTitle` branch assign the title from this line?
(`main.py` lines 55-58.) -/
def canSetTitle (line : Str) : Bool := hasSub kTitle line && (eqQuoted line).isSome

/-- Can the `kMDItemAudioTrackNumber` branch assign the track from this
line?  (`main.py` lines 59-62.) -/
def canSetTrack (line : Str) : Bool := hasSub kTrack line && (eqInt line).isSome

/-- Can the `kMDItemAuthors` branch assign the artist from this line and
the following one?  (`main.py` lines 35-50.) -/
def canSetArtistPair (line next : Str) : Bool :=
  hasSub kAuthors line && !hasSub kNull line && hasSub [40] line &&
  ((quoted (stripWs next)).isSome ||
   (!(stripWs (rstripComma (stripWs next)) == []) &&
    !(stripWs (rstripComma (stripWs next)) == [41])))

/-- No single-line field (album, title, track) can be parsed from this
line. -/
def noSelfParse (line : Str) : Prop :=
  canSetAlbum line = false ∧ canSetTitle line = false ∧ canSetTrack line = false

/-- "No field can be parsed from the output": no line assigns a
single-line field and no consecutive pair assigns the artist. -/
def noParse : List Str → Prop
  | [] => True
  | [l] => noSelfParse l
  | l :: next :: rest => noSelfParse l ∧ canSetArtistPair l next = false ∧
      noParse (next :: rest)

/-- `hasMusicE` lifted to the result of a possibly-deleting visit. -/
def hasMusicO : Option FSE → Bool
  | none => false
  | some e => hasMusicE e

mutual

/-- Specification count for `remove_empty_folders`: the number of
directories in the subtree `e` (including `e` itself) whose subtree has
no music file and whose deletion does not fail. -/
def countE (fails : List Str → Bool) (path : List Str) : FSE → Nat
  | .file _ => 0
  | .dir n cs =>
    countL fails (path ++ [n]) cs +
      (if hasMusicE (.dir n cs) = false ∧ fails (path ++ [n]) = false then 1 else 0)

/-- `countE` summed over a list of entries. -/
def countL (fails : List Str → Bool) (path : List Str) : List FSE → Nat
  | [] => 0
  | e :: t => countE fails path e + countL fails path t

end

/-! ## Concrete sanity checks of the embedded definitions -/

example : sanitize (toCodes "a*b:c") = toCodes "ab-c" := by decide
example : sanitize (toCodes ". a .") = toCodes " a " := by decide
example : sanitize (toCodes " a ") = toCodes "a" := by decide
example : decode_unicode_escapes (toCodes "\\U00f8rn") = 248 :: toCodes "rn" := by
  decide
example : get_main_artist (toCodes "Artist A feat. Artist B & Artist C") =
    toCodes "Artist A" := by decide
example : get_main_artist (toCodes "Solo Artist") = toCodes "Solo Artist" := by
  decide
example : get_main_artist (toCodes "A, B") = toCodes "A" := by decide
example : get_main_artist (toCodes "Foo ft. Bar") = toCodes "Foo" := by decide
example : get_main_artist (toCodes "AC&DC X") = toCodes "AC" := by decide
example : nameSuffix (toCodes "x.mp3") = toCodes ".mp3" := by decide
example : nameSuffix (toCodes "x.MP3") = toCodes ".MP3" := by decide
example : nameSuffix (toCodes "archive.tar.gz") = toCodes ".gz" := by decide
example : nameSuffix (toCodes ".bashrc") = [] := by decide
example : nameSuffix (toCodes "name.") = [] := by decide
example : nameSuffix (toCodes "plain") = [] := by decide
example : pad2 7 = toCodes "07" := by decide
example : pad2 0 = toCodes "00" := by decide
example : pad2 12 = toCodes "12" := by decide
example : filenameOf (some 7) (toCodes "Song") (toCodes ".mp3") =
    toCodes "07 - Song.mp3" := by decide
example : filenameOf none (toCodes "Song") (toCodes ".mp3") =
    toCodes "Song.mp3" := by decide
example : filenameOf (some 0) (toCodes "Song") (toCodes ".mp3") =
    toCodes "Song.mp3" := by decide
example :
    get_metadata (some (toCodes "kMDItemAlbum = \"Album X\"\nkMDItemTitle = \"One\"\nkMDItemAudioTrackNumber = 1")) =
      ⟨none, some (toCodes "Album X"), some (toCodes "One"), some 1⟩ := by decide
example :
    get_metadata (some (toCodes "kMDItemAuthors = (\n    \"Foo ft. Bar\"\n)")) =
      ⟨some (toCodes "Foo ft. Bar"), none, none, none⟩ := by decide
example :
    get_metadata (some (toCodes "kMDItemAuthors = (\n    Foo,\n)")) =
      ⟨some (toCodes "Foo"), none, none, none⟩ := by decide
example : get_metadata (some (toCodes "kMDItemAuthors = (null)")) =
    ⟨none, none, none, none⟩ := by decide
example : get_metadata (some (toCodes "garbage")) = ⟨none, none, none, none⟩ := by
  decide
example : get_metadata none = ⟨none, none, none, none⟩ := by decide
example :
    pruneE (fun _ => false) [] (.dir (toCodes "A") [.file (toCodes "cover.jpg")]) =
      (none, 1) := rfl
example :
    pruneE (fun _ => false) []
        (.dir (toCodes "A") [.dir (toCodes "B") [.file (toCodes "x.MP3")]]) =
      (some (.dir (toCodes "A") [.dir (toCodes "B") [.file (toCodes "x.MP3")]]), 0) := rfl
example :
    pruneE (fun _ => false) []
        (.dir (toCodes "A") [.dir (toCodes "B") [.file (toCodes "art.png")],
                             .file (toCodes "a.flac")]) =
      (some (.dir (toCodes "A") [.file (toCodes "a.flac")]), 1) := rfl

example : get_main_artist (toCodes "&X") = [] := by decide
example : get_main_artist (toCodes "A  ft  B") = toCodes "A" := by decide
example : get_main_artist (toCodes "A ft.B") = toCodes "A ft.B" := by decide
example : quoted (toCodes "\"\" \"q\"") = some (toCodes "\" \"q") := by decide
example : quoted (toCodes "= \"\"") = none := by decide
example : eqQuoted (toCodes "a = 5, b = \"x\"") = some (toCodes "x") := by decide
example : eqQuoted (toCodes "== \"ab\"") = some (toCodes "ab") := by decide
example : eqQuoted (toCodes "x = \" spaced \"") = some (toCodes " spaced ") := by
  decide
example : eqInt (toCodes "= abc = 12") = some 12 := by decide
example : splitNl (toCodes "a") = [toCodes "a"] := by decide
example : splitNl [] = [[]] := by decide
example : lowerStr (stripWs (toCodes " YES ")) = toCodes "yes" := by decide

/-! ## Lemmas about `sanitize` (claim C4) -/

theorem mem_dropWhile {p : Nat → Bool} {a : Nat} :
    ∀ {l : Str}, a ∈ l.dropWhile p → a ∈ l := by
  intro l
  induction l with
  | nil => exact fun h => h
  | cons b t ih =>
    rw [List.dropWhile_cons]
    by_cases hb : p b
    · rw [if_pos hb]; exact fun h => List.mem_cons_of_mem b (ih h)
    · rw [if_neg hb]; exact fun h => h

theorem mem_pyStrip {p : Nat → Bool} {a : Nat} {l : Str} (h : a ∈ pyStrip p l) :
    a ∈ l := by
  unfold pyStrip at h
  rw [List.mem_reverse] at h
  have h2 := mem_dropWhile h
  rw [List.mem_reverse] at h2
  exact mem_dropWhile h2

theorem mem_pyReplace1 {c : Nat} {r : Str} {a : Nat} :
    ∀ {l : Str}, a ∈ pyReplace1 c r l → a ∈ r ∨ (a ∈ l ∧ a ≠ c) := by
  intro l
  induction l with
  | nil => intro h; cases h
  | cons b t ih =>
    intro h
    rw [pyReplace1, List.mem_append] at h
    rcases h with h | h
    · by_cases hb : b = c
      · rw [if_pos hb] at h; exact Or.inl h
      · rw [if_neg hb] at h
        rcases List.mem_singleton.mp h with rfl
        exact Or.inr ⟨List.mem_cons_self _ _, hb⟩
    · rcases ih h with h | ⟨h1, h2⟩
      · exact Or.inl h
      · exact Or.inr ⟨List.mem_cons_of_mem b h1, h2⟩

theorem pyReplace1_eq_self {c : Nat} {r : Str} :
    ∀ {l : Str}, c ∉ l → pyReplace1 c r l = l := by
  intro l
  induction l with
  | nil => intro _; rfl
  | cons b t ih =>
    intro h
    have hb : b ≠ c := fun e => h (e ▸ List.mem_cons_self b t)
    rw [pyReplace1, if_neg hb, ih (fun hc => h (List.mem_cons_of_mem b hc))]
    rfl

theorem mem_sanitizeRepl {a : Nat} {l : Str} (h : a ∈ sanitizeRepl l) :
    a ≠ 47 ∧ a ≠ 92 ∧ a ≠ 58 ∧ a ≠ 42 ∧ a ≠ 63 ∧ a ≠ 34 ∧ a ≠ 60 ∧ a ≠ 62 ∧ a ≠ 124 := by
  unfold sanitizeRepl at h
  rcases mem_pyReplace1 h with hr | ⟨h, h124⟩
  · rcases List.mem_singleton.mp hr with rfl; decide
  rcases mem_pyReplace1 h with hr | ⟨h, h62⟩
  · cases hr
  rcases mem_pyReplace1 h with hr | ⟨h, h60⟩
  · cases hr
  rcases mem_pyReplace1 h with hr | ⟨h, h34⟩
  · cases hr
  rcases mem_pyReplace1 h with hr | ⟨h, h63⟩
  · cases hr
  rcases mem_pyReplace1 h with hr | ⟨h, h42⟩
  · cases hr
  rcases mem_pyReplace1 h with hr | ⟨h, h58⟩
  · rcases List.mem_singleton.mp hr with rfl; decide
  rcases mem_pyReplace1 h with hr | ⟨h, h92⟩
  · rcases List.mem_singleton.mp hr with rfl; decide
  rcases mem_pyReplace1 h with hr | ⟨h, h47⟩
  · rcases List.mem_singleton.mp hr with rfl; decide
  exact ⟨h47, h92, h58, h42, h63, h34, h60, h62, h124⟩

theorem mem_sanitize {a : Nat} {l : Str} (h : a ∈ sanitize l) :
    a ≠ 47 ∧ a ≠ 92 ∧ a ≠ 58 ∧ a ≠ 42 ∧ a ≠ 63 ∧ a ≠ 34 ∧ a ≠ 60 ∧ a ≠ 62 ∧ a ≠ 124 := by
  unfold sanitize stripDot stripWs at h
  exact mem_sanitizeRepl (mem_pyStrip (mem_pyStrip h))

theorem subEscF_eq_self {mk : Nat} :
    ∀ (fuel : Nat) (l : Str), 92 ∉ l → subEscF mk fuel l = l := by
  intro fuel
  induction fuel with
  | zero => intro l _; rfl
  | succ n ih =>
    intro l h
    cases l with
    | nil => rfl
    | cons a rest =>
      have ha : a ≠ 92 := fun e => h (e ▸ List.mem_cons_self a rest)
      have ht : 92 ∉ rest := fun hc => h (List.mem_cons_of_mem a hc)
      have ha' : (a == 92) = false := by simp [ha]
      rw [subEscF, ha', Bool.false_and, if_neg Bool.false_ne_true, ih rest ht]

theorem decode_eq_self {l : Str} (h : 92 ∉ l) : decode_unicode_escapes l = l := by
  unfold decode_unicode_escapes subEsc
  rw [subEscF_eq_self _ l h, subEscF_eq_self _ l h]

theorem sanitizeRepl_eq_self {l : Str}
    (h : ∀ a ∈ l, a ≠ 47 ∧ a ≠ 92 ∧ a ≠ 58 ∧ a ≠ 42 ∧ a ≠ 63 ∧ a ≠ 34 ∧ a ≠ 60 ∧
      a ≠ 62 ∧ a ≠ 124) :
    sanitizeRepl l = l := by
  unfold sanitizeRepl
  rw [pyReplace1_eq_self (fun hc => (h 47 hc).1 rfl),
    pyReplace1_eq_self (fun hc => (h 92 hc).2.1 rfl),
    pyReplace1_eq_self (fun hc => (h 58 hc).2.2.1 rfl),
    pyReplace1_eq_self (fun hc => (h 42 hc).2.2.2.1 rfl),
    pyReplace1_eq_self (fun hc => (h 63 hc).2.2.2.2.1 rfl),
    pyReplace1_eq_self (fun hc => (h 34 hc).2.2.2.2.2.1 rfl),
    pyReplace1_eq_self (fun hc => (h 60 hc).2.2.2.2.2.2.1 rfl),
    pyReplace1_eq_self (fun hc => (h 62 hc).2.2.2.2.2.2.2.1 rfl),
    pyReplace1_eq_self (fun hc => (h 124 hc).2.2.2.2.2.2.2.2 rfl)]

theorem dropWhile_dropWhile {p : Nat → Bool} :
    ∀ (l : Str), (l.dropWhile p).dropWhile p = l.dropWhile p := by
  intro l
  induction l with
  | nil => rfl
  | cons a t ih =>
    rw [List.dropWhile_cons]
    by_cases ha : p a
    · rw [if_pos ha]; exact ih
    · rw [if_neg ha, List.dropWhile_cons, if_neg ha]

theorem dropWhile_head_not {p : Nat → Bool} :
    ∀ {l : Str} {a : Nat} {t : Str}, l.dropWhile p = a :: t → p a = false := by
  intro l
  induction l with
  | nil => intro a t h; cases h
  | cons b u ih =>
    intro a t h
    rw [List.dropWhile_cons] at h
    by_cases hb : p b
    · rw [if_pos hb] at h; exact ih h
    · rw [if_neg hb] at h
      cases h
      exact Bool.of_not_eq_true hb

theorem dropWhile_getLast? {p : Nat → Bool} :
    ∀ (l : Str), l.dropWhile p ≠ [] → (l.dropWhile p).getLast? = l.getLast? := by
  intro l
  induction l with
  | nil => intro h; cases h rfl
  | cons b u ih =>
    intro h
    rw [List.dropWhile_cons] at h ⊢
    by_cases hb : p b
    · rw [if_pos hb] at h ⊢
      have hu : u ≠ [] := by
        rintro rfl
        exact h rfl
      rw [ih h]
      cases u with
      | nil => cases hu rfl
      | cons c v => rw [List.getLast?_cons_cons]
    · rw [if_neg hb]

theorem pyStrip_idem {p : Nat → Bool} (l : Str) :
    pyStrip p (pyStrip p l) = pyStrip p l := by
  have hstep1 : (pyStrip p l).dropWhile p = pyStrip p l := by
    cases hs : pyStrip p l with
    | nil => rfl
    | cons a t =>
      have hhd : (pyStrip p l).head? = some a := by rw [hs]; rfl
      unfold pyStrip at hhd
      rw [List.head?_reverse] at hhd
      have hBne : (l.dropWhile p).reverse.dropWhile p ≠ [] := by
        intro he
        rw [he] at hhd
        cases hhd
      rw [dropWhile_getLast? _ hBne, List.getLast?_reverse] at hhd
      rcases hdl : l.dropWhile p with _ | ⟨b, u⟩
      · rw [hdl] at hhd; cases hhd
      · rw [hdl] at hhd
        have hba : b = a := by cases hhd; rfl
        have hpa : p a = false := hba ▸ dropWhile_head_not hdl
        rw [List.dropWhile_cons, hpa]
        simp
  show ((((pyStrip p l).dropWhile p).reverse).dropWhile p).reverse = pyStrip p l
  rw [hstep1]
  unfold pyStrip
  rw [List.reverse_reverse, dropWhile_dropWhile]

/-- C4, counterexample: `sanitize` is not idempotent on every string.  On
`". a ."` the first pass strips the outer dots, exposing the blanks around
`a`; a second pass strips those too, so
`sanitize(sanitize(". a .")) = "a" ≠ " a " = sanitize(". a .")`. -/
theorem C4_counterexample :
    sanitize (sanitize (toCodes ". a .")) ≠ sanitize (toCodes ". a .") ∧
    sanitize (toCodes ". a .") = toCodes " a " ∧
    sanitize (sanitize (toCodes ". a .")) = toCodes "a" := by
  refine ⟨by decide, by decide, by decide⟩

/-- C4, amended: `sanitize` is idempotent on every input whose sanitized
form carries no leading or trailing whitespace (in particular on all
inputs where stripping the boundary dots exposes no blank).  On the first
pass every `/ \ : * ? " < > |` has been replaced or removed - so the
escape-decoding and replacement passes are the identity on the result -
and the boundary dots are gone; under the stated hypothesis the
whitespace strip is also the identity, so the second pass returns its
input unchanged. -/
theorem C4_sanitize_idem_of_stripped (x : Str)
    (h : stripWs (sanitize x) = sanitize x) :
    sanitize (sanitize x) = sanitize x := by
  have hmem := fun a (ha : a ∈ sanitize x) => mem_sanitize ha
  have h92 : 92 ∉ sanitize x := fun hm => ((hmem 92 hm).2.1) rfl
  have hdec : decode_unicode_escapes (sanitize x) = sanitize x := decode_eq_self h92
  have hrepl : sanitizeRepl (sanitize x) = sanitize x := sanitizeRepl_eq_self hmem
  show stripDot (stripWs (sanitizeRepl (decode_unicode_escapes (sanitize x)))) =
    sanitize x
  rw [hdec, hrepl, h]
  show stripDot (stripDot (stripWs (sanitizeRepl (decode_unicode_escapes x)))) =
    sanitize x
  exact pyStrip_idem _

/-- C4, witness for the amended theorem at `"a.b"`. -/
theorem C4_sanitize_idem_of_stripped_witness :
    sanitize (sanitize (toCodes "a.b")) = sanitize (toCodes "a.b") :=
  C4_sanitize_idem_of_stripped (toCodes "a.b") (by decide)


/-! ## Lemmas about the planning loop (claims C1, C2, C5, C7) -/

theorem planStep_move {root : MPath} {ex : MPath → Bool} {f : MPath} {m : TrackMeta}
    {v : MPath × MPath} (h : (planStep root ex f m).1 = some v) :
    v.1 ≠ v.2 ∧ ex v.2 = false := by
  rcases m with ⟨_ | ar, _ | al, _ | ti, tr⟩ <;> simp only [planStep] at h <;>
    try cases h
  split_ifs at h with h1 h2
  cases h
  push_neg at h2
  exact ⟨h2.1, Bool.not_eq_true (ex (targetOf root f ar al ti tr)) ▸ h2.2⟩

theorem planStep_complete {root : MPath} {ex : MPath → Bool} {f : MPath}
    {m : TrackMeta} {ar al ti : Str} (ha : m.artist = some ar)
    (hb : m.album = some al) (hc : m.title = some ti)
    (h1 : ar ≠ []) (h2 : al ≠ []) (h3 : ti ≠ [])
    (h4 : f ≠ targetOf root f ar al ti m.track)
    (h5 : ex (targetOf root f ar al ti m.track) = false) :
    planStep root ex f m = (some (f, targetOf root f ar al ti m.track), 0) := by
  rcases m with ⟨ma, mb, mc, tr⟩
  simp only at ha hb hc
  subst ha hb hc
  simp only [planStep]
  rw [if_neg (by rintro (he | he | he) <;> [exact h1 he; exact h2 he; exact h3 he])]
  rw [if_neg (by rintro (he | he); exact h4 he; rw [h5] at he; cases he)]

theorem plan_append_fst (root : MPath) (ex : MPath → Bool)
    (l1 l2 : List (MPath × TrackMeta)) :
    (plan root ex (l1 ++ l2)).1 = (plan root ex l1).1 ++ (plan root ex l2).1 := by
  induction l1 with
  | nil => rfl
  | cons fm t ih =>
    obtain ⟨f, m⟩ := fm
    cases hv : (planStep root ex f m).1 <;>
      simp only [List.cons_append, plan, hv, List.append_eq, ih]

theorem plan_append_snd (root : MPath) (ex : MPath → Bool)
    (l1 l2 : List (MPath × TrackMeta)) :
    (plan root ex (l1 ++ l2)).2 = (plan root ex l1).2 + (plan root ex l2).2 := by
  induction l1 with
  | nil =>
    simp only [List.nil_append, plan]
    omega
  | cons fm t ih =>
    obtain ⟨f, m⟩ := fm
    simp only [List.cons_append, plan, List.append_eq, ih]
    omega

/-- C1: every planned operation has `source != destination` and a
destination that did not exist (under the plan-time existence predicate
`ex`); and a file with complete metadata whose target equals its own path
or already exists contributes neither a move nor a skip. -/
theorem C1_plan_invariant :
    (∀ (root : MPath) (ex : MPath → Bool) (files : List (MPath × TrackMeta))
        (mv : MPath × MPath), mv ∈ (plan root ex files).1 →
        mv.1 ≠ mv.2 ∧ ex mv.2 = false) ∧
    (∀ (root : MPath) (ex : MPath → Bool) (f : MPath) (m : TrackMeta) (ar al ti : Str),
        m.artist = some ar → m.album = some al → m.title = some ti →
        ar ≠ [] → al ≠ [] → ti ≠ [] →
        (f = targetOf root f ar al ti m.track ∨
          ex (targetOf root f ar al ti m.track) = true) →
        planStep root ex f m = (none, 0)) := by
  constructor
  · intro root ex files mv hmem
    induction files with
    | nil => cases hmem
    | cons fm t ih =>
      obtain ⟨f, m⟩ := fm
      rcases hv : (planStep root ex f m).1 with _ | v
      · rw [show (plan root ex ((f, m) :: t)).1 =
            (match (planStep root ex f m).1 with
             | some v => v :: (plan root ex t).1
             | none => (plan root ex t).1) from rfl, hv] at hmem
        exact ih hmem
      · rw [show (plan root ex ((f, m) :: t)).1 =
            (match (planStep root ex f m).1 with
             | some v => v :: (plan root ex t).1
             | none => (plan root ex t).1) from rfl, hv] at hmem
        rcases List.mem_cons.mp hmem with rfl | hmem2
        · exact planStep_move hv
        · exact ih hmem2
  · intro root ex f m ar al ti ha hb hc h1 h2 h3 hdrop
    rcases m with ⟨ma, mb, mc, tr⟩
    simp only at ha hb hc
    subst ha hb hc
    simp only [planStep]
    rw [if_neg (by rintro (he | he | he) <;> [exact h1 he; exact h2 he; exact h3 he])]
    rw [if_pos hdrop]

/-- C1, witness: a concrete plan whose single move satisfies the
invariant, and a concrete already-placed file that is dropped without
being counted. -/
theorem C1_plan_invariant_witness :
    [toCodes "MyMusic", toCodes "x.mp3"] ≠
      [toCodes "MyMusic", toCodes "A", toCodes "B", toCodes "07 - Song.mp3"] ∧
    (fun (_ : MPath) => false)
        [toCodes "MyMusic", toCodes "A", toCodes "B", toCodes "07 - Song.mp3"] = false ∧
    planStep [toCodes "MyMusic"] (fun _ => true)
        [toCodes "MyMusic", toCodes "x.mp3"]
        ⟨some (toCodes "A"), some (toCodes "B"), some (toCodes "Song"), some 7⟩ =
      (none, 0) := by
  refine ⟨?_, ?_, ?_⟩
  · exact (C1_plan_invariant.1 [toCodes "MyMusic"] (fun _ => false)
      [([toCodes "MyMusic", toCodes "x.mp3"],
        ⟨some (toCodes "A"), some (toCodes "B"), some (toCodes "Song"), some 7⟩)]
      ([toCodes "MyMusic", toCodes "x.mp3"],
       [toCodes "MyMusic", toCodes "A", toCodes "B", toCodes "07 - Song.mp3"])
      (by decide)).1
  · exact (C1_plan_invariant.1 [toCodes "MyMusic"] (fun _ => false)
      [([toCodes "MyMusic", toCodes "x.mp3"],
        ⟨some (toCodes "A"), some (toCodes "B"), some (toCodes "Song"), some 7⟩)]
      ([toCodes "MyMusic", toCodes "x.mp3"],
       [toCodes "MyMusic", toCodes "A", toCodes "B", toCodes "07 - Song.mp3"])
      (by decide)).2
  · exact C1_plan_invariant.2 [toCodes "MyMusic"] (fun _ => true)
      [toCodes "MyMusic", toCodes "x.mp3"]
      ⟨some (toCodes "A"), some (toCodes "B"), some (toCodes "Song"), some 7⟩
      (toCodes "A") (toCodes "B") (toCodes "Song") rfl rfl rfl
      (by decide) (by decide) (by decide) (Or.inr rfl)

/-- C2: a file whose extracted metadata lacks artist, album or title
contributes no move and exactly one skip, whatever the other fields
(including the track number) hold: its `planStep` is `(none, 1)`, and
inserting it anywhere into the scanned list leaves the move list
unchanged while increasing the skip count by exactly one. -/
theorem C2_incomplete_skip :
    ∀ (root : MPath) (ex : MPath → Bool) (f : MPath) (m : TrackMeta),
      (m.artist = none ∨ m.album = none ∨ m.title = none) →
      planStep root ex f m = (none, 1) ∧
      ∀ (pre post : List (MPath × TrackMeta)),
        (plan root ex (pre ++ (f, m) :: post)).1 = (plan root ex (pre ++ post)).1 ∧
        (plan root ex (pre ++ (f, m) :: post)).2 = (plan root ex (pre ++ post)).2 + 1 := by
  intro root ex f m hmiss
  have hstep : planStep root ex f m = (none, 1) := by
    rcases m with ⟨ma, mb, mc, tr⟩
    simp only at hmiss
    rcases hmiss with rfl | rfl | rfl
    · cases mb <;> cases mc <;> rfl
    · cases ma <;> cases mc <;> try rfl
    · cases ma <;> cases mb <;> try rfl
  refine ⟨hstep, fun pre post => ⟨?_, ?_⟩⟩
  · rw [plan_append_fst, plan_append_fst]
    have h1 : (plan root ex ((f, m) :: post)).1 = (plan root ex post).1 := by
      simp only [plan, hstep]
    rw [h1]
  · rw [plan_append_snd, plan_append_snd]
    have h1 : (plan root ex ((f, m) :: post)).2 = 1 + (plan root ex post).2 := by
      simp only [plan, hstep]
    rw [h1]
    omega

/-- C2, witness: a record missing only the artist is skipped. -/
theorem C2_incomplete_skip_witness :
    planStep [toCodes "MyMusic"] (fun _ => false) [toCodes "MyMusic", toCodes "z.mp3"]
        ⟨none, some (toCodes "B"), some (toCodes "T"), some 3⟩ =
      (none, 1) :=
  (C2_incomplete_skip [toCodes "MyMusic"] (fun _ => false)
    [toCodes "MyMusic", toCodes "z.mp3"]
    ⟨none, some (toCodes "B"), some (toCodes "T"), some 3⟩ (Or.inl rfl)).1

/-- C5, counterexample: the planning loop does not treat an empty
sanitized segment as incomplete metadata.  The raw artist `"."` passes
the truthiness gate, `sanitize(get_main_artist("."))` is empty, and the
file still yields a `MoveOperation` - its destination simply lacks the
artist component (`pathlib` drops the empty segment). -/
theorem C5_counterexample :
    planStep [toCodes "MyMusic"] (fun _ => false)
        [toCodes "MyMusic", toCodes "y.mp3"]
        ⟨some (toCodes "."), some (toCodes "B"), some (toCodes "T"), none⟩ =
      (some ([toCodes "MyMusic", toCodes "y.mp3"],
             [toCodes "MyMusic", toCodes "B", toCodes "T.mp3"]), 0) ∧
    sanitize (get_main_artist (toCodes ".")) = [] := by
  exact ⟨by decide, by decide⟩

/-- C5, amended: the planning loop performs no empty-segment guard.  A
file whose artist, album and title are present (truthy) is planned for a
move whenever `source != destination` and the destination does not exist,
even when a sanitized segment is empty; the empty segment contributes no
path component. -/
theorem C5_empty_segment_still_moves :
    ∀ (root : MPath) (ex : MPath → Bool) (f : MPath) (m : TrackMeta) (ar al ti : Str),
      m.artist = some ar → m.album = some al → m.title = some ti →
      ar ≠ [] → al ≠ [] → ti ≠ [] →
      sanitize (get_main_artist ar) = [] →
      f ≠ targetOf root f ar al ti m.track →
      ex (targetOf root f ar al ti m.track) = false →
      planStep root ex f m = (some (f, targetOf root f ar al ti m.track), 0) ∧
      targetOf root f ar al ti m.track =
        pathApp (pathApp root (sanitize al))
          (filenameOf m.track (sanitize ti) (suffixOf f)) := by
  intro root ex f m ar al ti ha hb hc h1 h2 h3 hempty h4 h5
  refine ⟨planStep_complete ha hb hc h1 h2 h3 h4 h5, ?_⟩
  unfold targetOf
  rw [hempty]
  rfl

/-- C5, witness for the amended theorem: the `"."` artist example. -/
theorem C5_empty_segment_still_moves_witness :
    planStep [toCodes "MyMusic"] (fun _ => false)
        [toCodes "MyMusic", toCodes "w.mp3"]
        ⟨some (toCodes "."), some (toCodes "C"), some (toCodes "U"), none⟩ =
      (some ([toCodes "MyMusic", toCodes "w.mp3"],
             targetOf [toCodes "MyMusic"] [toCodes "MyMusic", toCodes "w.mp3"]
               (toCodes ".") (toCodes "C") (toCodes "U") none), 0) :=
  (C5_empty_segment_still_moves [toCodes "MyMusic"] (fun _ => false)
    [toCodes "MyMusic", toCodes "w.mp3"]
    ⟨some (toCodes "."), some (toCodes "C"), some (toCodes "U"), none⟩
    (toCodes ".") (toCodes "C") (toCodes "U") rfl rfl rfl
    (by decide) (by decide) (by decide) (by decide) (by decide) rfl).1

/-- C7, counterexample: a present track number equal to 0 is falsy in
`if meta["track"]:`, so the planned destination ends in `"Song.mp3"`
rather than the claimed `"00 - Song.mp3"`. -/
theorem C7_counterexample :
    plan [toCodes "MyMusic"] (fun _ => false)
        [([toCodes "MyMusic", toCodes "loose.mp3"],
          ⟨some (toCodes "A"), some (toCodes "B"), some (toCodes "Song"), some 0⟩)] =
      ([([toCodes "MyMusic", toCodes "loose.mp3"],
         [toCodes "MyMusic", toCodes "A", toCodes "B", toCodes "Song.mp3"])], 0) ∧
    toCodes "Song.mp3" ≠ pad2 0 ++ toCodes " - " ++ toCodes "Song" ++ toCodes ".mp3" := by
  exact ⟨by decide, by decide⟩

/-- C7, amended: for every file planned for a move the destination is
`root / sanitize(primaryArtist) / sanitize(album) / filename` (joined with
`pathlib`, which drops empty segments), where the filename is
`"{track:02d} - {sanitizedTitle}{ext}"` when the track number is present
and nonzero and `"{sanitizedTitle}{ext}"` when it is absent - a present
track number of 0 is treated like an absent one. -/
theorem C7_destination_formula :
    (∀ (root : MPath) (ex : MPath → Bool) (f : MPath) (m : TrackMeta) (ar al ti : Str),
      m.artist = some ar → m.album = some al → m.title = some ti →
      ar ≠ [] → al ≠ [] → ti ≠ [] →
      f ≠ targetOf root f ar al ti m.track →
      ex (targetOf root f ar al ti m.track) = false →
      planStep root ex f m = (some (f, targetOf root f ar al ti m.track), 0) ∧
      targetOf root f ar al ti m.track =
        pathApp (pathApp (pathApp root (sanitize (get_main_artist ar))) (sanitize al))
          (filenameOf m.track (sanitize ti) (suffixOf f))) ∧
    (∀ (n : Nat) (t e : Str), n ≠ 0 →
      filenameOf (some n) t e = pad2 n ++ toCodes " - " ++ t ++ e) ∧
    (∀ (t e : Str), filenameOf none t e = t ++ e) ∧
    filenameOf (some 7) (toCodes "Song") (toCodes ".mp3") = toCodes "07 - Song.mp3" ∧
    filenameOf none (toCodes "Song") (toCodes ".mp3") = toCodes "Song.mp3" := by
  refine ⟨?_, ?_, fun t e => rfl, by decide, by decide⟩
  · intro root ex f m ar al ti ha hb hc h1 h2 h3 h4 h5
    exact ⟨planStep_complete ha hb hc h1 h2 h3 h4 h5, rfl⟩
  · intro n t e hn
    show (if n = 0 then t ++ e else pad2 n ++ toCodes " - " ++ t ++ e) =
      pad2 n ++ toCodes " - " ++ t ++ e
    rw [if_neg hn]

/-- C7, witness for the amended theorem: track 7 and an absent track. -/
theorem C7_destination_formula_witness :
    planStep [toCodes "MyMusic"] (fun _ => false) [toCodes "MyMusic", toCodes "x.mp3"]
        ⟨some (toCodes "A"), some (toCodes "B"), some (toCodes "Song"), some 7⟩ =
      (some ([toCodes "MyMusic", toCodes "x.mp3"],
             targetOf [toCodes "MyMusic"] [toCodes "MyMusic", toCodes "x.mp3"]
               (toCodes "A") (toCodes "B") (toCodes "Song") (some 7)), 0) ∧
    filenameOf (some 7) (toCodes "Song") (toCodes ".mp3") =
      pad2 7 ++ toCodes " - " ++ toCodes "Song" ++ toCodes ".mp3" := by
  constructor
  · exact (C7_destination_formula.1 [toCodes "MyMusic"] (fun _ => false)
      [toCodes "MyMusic", toCodes "x.mp3"]
      ⟨some (toCodes "A"), some (toCodes "B"), some (toCodes "Song"), some 7⟩
      (toCodes "A") (toCodes "B") (toCodes "Song") rfl rfl rfl
      (by decide) (by decide) (by decide) (by decide) (by decide)).1
  · exact C7_destination_formula.2.1 7 (toCodes "Song") (toCodes ".mp3") (by decide)

/-! ## The confirmation prompt and the prune pass (claims C3, C10) -/

/-- C3, counterexample: with a non-empty move list the prompt is reached,
and a negative answer (`"no"`) returns from `main` before
`remove_empty_folders` - the prune pass does not run on that path. -/
theorem C3_counterexample :
    (mainTail [([toCodes "a"], [toCodes "b"])] (toCodes "no")).pruned = false ∧
    ([([toCodes "a"], [toCodes "b"])] : List (MPath × MPath)) ≠ [] := by
  exact ⟨rfl, by decide⟩

/-- C3, amended: after the prompt is answered, the prune pass runs only
when the answer normalizes to `"yes"` (a negative answer returns
immediately, applying nothing and pruning nothing); it also runs on the
no-moves path, where no prompt is shown.  An affirmative answer applies
the moves and then prunes. -/
theorem C3_prune_only_on_yes :
    ∀ (moves : List (MPath × MPath)) (resp : Str),
      ((mainTail moves resp).pruned = true ↔
        (moves = [] ∨ lowerStr (stripWs resp) = toCodes "yes")) ∧
      (moves ≠ [] → lowerStr (stripWs resp) = toCodes "yes" →
        mainTail moves resp = ⟨moves, true⟩) ∧
      (moves ≠ [] → lowerStr (stripWs resp) ≠ toCodes "yes" →
        mainTail moves resp = ⟨[], false⟩) := by
  intro moves resp
  unfold mainTail
  by_cases h : moves = []
  · rw [if_pos h]
    exact ⟨⟨fun _ => Or.inl h, fun _ => rfl⟩, fun hn => absurd h hn,
      fun hn => absurd h hn⟩
  · rw [if_neg h]
    by_cases hy : lowerStr (stripWs resp) = toCodes "yes"
    · rw [if_pos hy]
      exact ⟨⟨fun _ => Or.inr hy, fun _ => rfl⟩, fun _ _ => rfl,
        fun _ hn => absurd hy hn⟩
    · rw [if_neg hy]
      refine ⟨⟨fun hf => absurd hf (by decide), fun hor => ?_⟩,
        fun _ hy2 => absurd hy2 hy, fun _ _ => rfl⟩
      rcases hor with hor | hor
      · exact absurd hor h
      · exact absurd hor hy

/-- C3, witness for the amended theorem. -/
theorem C3_prune_only_on_yes_witness :
    mainTail [([toCodes "a"], [toCodes "b"])] (toCodes "yes") =
      ⟨[([toCodes "a"], [toCodes "b"])], true⟩ ∧
    mainTail [([toCodes "a"], [toCodes "b"])] (toCodes "no") = ⟨[], false⟩ := by
  constructor
  · exact (C3_prune_only_on_yes [([toCodes "a"], [toCodes "b"])]
      (toCodes "yes")).2.1 (by decide) (by decide)
  · exact (C3_prune_only_on_yes [([toCodes "a"], [toCodes "b"])]
      (toCodes "no")).2.2 (by decide) (by decide)

/-- C10: with a non-empty move list, the moves are applied exactly when
the confirmation line, stripped of surrounding whitespace and lowercased,
equals `"yes"`; any other answer applies no move, so the apply phase
leaves the filesystem unchanged. -/
theorem C10_confirmation_gate :
    ∀ (moves : List (MPath × MPath)) (resp : Str), moves ≠ [] →
      ((mainTail moves resp).applied = moves ↔
        lowerStr (stripWs resp) = toCodes "yes") ∧
      (lowerStr (stripWs resp) ≠ toCodes "yes" →
        (mainTail moves resp).applied = []) := by
  intro moves resp h
  unfold mainTail
  rw [if_neg h]
  by_cases hy : lowerStr (stripWs resp) = toCodes "yes"
  · rw [if_pos hy]
    exact ⟨⟨fun _ => hy, fun _ => rfl⟩, fun hn => absurd hy hn⟩
  · rw [if_neg hy]
    exact ⟨⟨fun he => absurd he.symm h, fun hy2 => absurd hy2 hy⟩, fun _ => rfl⟩

/-- C10, witness: `" YES "` normalizes to `"yes"` and is applied; `"y"`
and `"ok"` are not. -/
theorem C10_confirmation_gate_witness :
    (mainTail [([toCodes "a"], [toCodes "b"])] (toCodes " YES ")).applied =
      [([toCodes "a"], [toCodes "b"])] ∧
    (mainTail [([toCodes "a"], [toCodes "b"])] (toCodes "y")).applied = [] ∧
    (mainTail [([toCodes "a"], [toCodes "b"])] (toCodes "ok")).applied = [] := by
  refine ⟨?_, ?_, ?_⟩
  · exact (C10_confirmation_gate [([toCodes "a"], [toCodes "b"])]
      (toCodes " YES ") (by decide)).1.mpr (by decide)
  · exact (C10_confirmation_gate [([toCodes "a"], [toCodes "b"])]
      (toCodes "y") (by decide)).2 (by decide)
  · exact (C10_confirmation_gate [([toCodes "a"], [toCodes "b"])]
      (toCodes "ok") (by decide)).2 (by decide)

/-! ## The artist resolver (claim C6) -/

/-- C6: `get_main_artist` applies the seven separator patterns in the
fixed source order, each time truncating the working string at the first
match, and strips the result; the three contract examples hold. -/
theorem C6_get_main_artist :
    (∀ s : Str, get_main_artist s =
      stripWs (truncAt (matchSymAt 44) (truncAt (matchSymAt 38)
        (truncAt (matchWordAt (toCodes "x") false)
          (truncAt (matchWordAt (toCodes "with") false)
            (truncAt (matchWordAt (toCodes "featuring") false)
              (truncAt (matchWordAt (toCodes "feat") true)
                (truncAt (matchWordAt (toCodes "ft") true) s)))))))) ∧
    get_main_artist (toCodes "Artist A feat. Artist B & Artist C") =
      toCodes "Artist A" ∧
    get_main_artist (toCodes "Solo Artist") = toCodes "Solo Artist" ∧
    get_main_artist (toCodes "A, B") = toCodes "A" :=
  ⟨fun _ => rfl, by decide, by decide, by decide⟩

/-! ## The metadata parser never parses unparseable output (claim C8) -/

theorem noParse_head {l : Str} {rest : List Str} (h : noParse (l :: rest)) :
    noSelfParse l := by
  cases rest with
  | nil => exact h
  | cons b t => exact h.1

theorem noParse_tail {l : Str} {rest : List Str} (h : noParse (l :: rest)) :
    noParse rest := by
  cases rest with
  | nil => trivial
  | cons b t => exact h.2.2

theorem artistFrom_eq_self {d : TrackMeta} {line next : Str}
    (hpair : canSetArtistPair line next = false)
    (hA : hasSub kAuthors line = true)
    (hN : hasSub kNull line = false)
    (hP : hasSub [40] line = true) :
    artistFrom d next = d := by
  unfold canSetArtistPair at hpair
  rw [hA, hN, hP] at hpair
  simp only [Bool.not_false, Bool.and_true, Bool.true_and, Bool.and_self] at hpair
  unfold artistFrom
  cases hq : quoted (stripWs next) with
  | some g => rw [hq] at hpair; simp at hpair
  | none =>
    rw [hq] at hpair
    simp only [Option.isSome_none, Bool.false_or] at hpair
    cases hv : stripWs (rstripComma (stripWs next)) with
    | nil => rfl
    | cons a t =>
      rw [hv] at hpair
      simp at hpair
      obtain ⟨rfl, rfl⟩ := hpair
      rfl

theorem mdLoop_noParse :
    ∀ (n : Nat) (ls : List Str), ls.length ≤ n → noParse ls →
      ∀ d, mdLoop d ls = d := by
  intro n
  induction n with
  | zero =>
    intro ls hlen _ d
    cases ls with
    | nil => rfl
    | cons l t => simp at hlen
  | succ n ih =>
    intro ls hlen hnp d
    cases ls with
    | nil => rfl
    | cons line rest =>
      simp only [List.length_cons] at hlen
      have hnsp : noSelfParse line := noParse_head hnp
      show mdLoop d (line :: rest) = d
      rw [mdLoop]
      by_cases hA : hasSub kAuthors line = true
      · rw [if_pos hA]
        by_cases hG : (!hasSub kNull line && hasSub [40] line) = true
        · rw [if_pos hG]
          cases rest with
          | nil => rfl
          | cons next rest2 =>
            simp only [List.length_cons] at hlen
            have hpair : canSetArtistPair line next = false := hnp.2.1
            simp only [Bool.and_eq_true, Bool.not_eq_true'] at hG
            rw [mdAuthors, artistFrom_eq_self hpair hA hG.1 hG.2]
            exact ih rest2 (by omega) (noParse_tail (noParse_tail hnp)) d
        · rw [if_neg hG]
          exact ih rest (by omega) (noParse_tail hnp) d
      · rw [if_neg hA]
        by_cases hB : hasSub kAlbum line = true
        · rw [if_pos hB]
          have hq : eqQuoted line = none := by
            have hcs := hnsp.1
            cases he : eqQuoted line with
            | none => rfl
            | some g =>
              rw [canSetAlbum, hB, he] at hcs
              simp at hcs
          rw [hq]
          exact ih rest (by omega) (noParse_tail hnp) d
        · rw [if_neg hB]
          by_cases hT : hasSub kTitle line = true
          · rw [if_pos hT]
            have hq : eqQuoted line = none := by
              have hcs := hnsp.2.1
              cases he : eqQuoted line with
              | none => rfl
              | some g =>
                rw [canSetTitle, hT, he] at hcs
                simp at hcs
            rw [hq]
            exact ih rest (by omega) (noParse_tail hnp) d
          · rw [if_neg hT]
            by_cases hK : hasSub kTrack line = true
            · rw [if_pos hK]
              have hq : eqInt line = none := by
                have hcs := hnsp.2.2
                cases he : eqInt line with
                | none => rfl
                | some g =>
                  rw [canSetTrack, hK, he] at hcs
                  simp at hcs
              rw [hq]
              exact ih rest (by omega) (noParse_tail hnp) d
            · rw [if_neg hK]
              exact ih rest (by omega) (noParse_tail hnp) d

/-- C8: `get_metadata` is total (no error reaches its caller); the
exception path - a raised `subprocess` error, including the 5-second
timeout - yields the all-absent record, and so does any output from which
no field can be parsed. -/
theorem C8_get_metadata_failsoft :
    get_metadata none = ⟨none, none, none, none⟩ ∧
    ∀ out : Str, noParse (splitNl (stripWs out)) →
      get_metadata (some out) = ⟨none, none, none, none⟩ :=
  ⟨rfl, fun out h => mdLoop_noParse (splitNl (stripWs out)).length _ le_rfl h _⟩

/-- C8, witness: unparseable output yields the all-absent record. -/
theorem C8_get_metadata_failsoft_witness :
    get_metadata (some (toCodes "no metadata for you")) =
      ⟨none, none, none, none⟩ := by
  apply C8_get_metadata_failsoft.2
  have h : splitNl (stripWs (toCodes "no metadata for you")) =
      [toCodes "no metadata for you"] := by decide
  rw [h]
  exact ⟨by decide, by decide, by decide⟩

/-! ## The empty-folder prune pass (claim C9) -/

theorem hasMusicE_dir (n : Str) (cs : List FSE) :
    hasMusicE (.dir n cs) = hasMusicL cs := rfl

mutual

theorem hasMusic_pruneE (fails : List Str → Bool) (path : List Str) :
    ∀ e : FSE, hasMusicO (pruneE fails path e).1 = hasMusicE e
  | .file n => rfl
  | .dir n cs => by
    have hl := hasMusic_pruneL fails (path ++ [n]) cs
    rw [pruneE]
    by_cases h1 : hasMusicE (.dir n ((pruneL fails (path ++ [n]) cs).1)) = true
    · rw [if_pos h1]
      rw [hasMusicO, hasMusicE_dir, hasMusicE_dir, hl]
    · rw [if_neg h1]
      by_cases h2 : fails (path ++ [n]) = true
      · rw [if_pos h2]
        rw [hasMusicO, hasMusicE_dir, hasMusicE_dir, hl]
      · rw [if_neg h2]
        rw [hasMusicO]
        rw [hasMusicE_dir] at h1
        rw [hl] at h1
        rw [hasMusicE_dir]
        exact (Bool.not_eq_true _ ▸ h1).symm

theorem hasMusic_pruneL (fails : List Str → Bool) (path : List Str) :
    ∀ cs : List FSE, hasMusicL (pruneL fails path cs).1 = hasMusicL cs
  | [] => rfl
  | e :: t => by
    have he := hasMusic_pruneE fails path e
    have ht := hasMusic_pruneL fails path t
    rw [pruneL]
    cases hp : (pruneE fails path e).1 with
    | none =>
      rw [hp, hasMusicO] at he
      show hasMusicL (pruneL fails path t).1 = hasMusicL (e :: t)
      rw [ht, hasMusicL, ← he, Bool.false_or]
    | some e' =>
      rw [hp, hasMusicO] at he
      show hasMusicL (e' :: (pruneL fails path t).1) = hasMusicL (e :: t)
      rw [hasMusicL, hasMusicL, he, ht]

end

mutual

theorem count_pruneE (fails : List Str → Bool) (path : List Str) :
    ∀ e : FSE, (pruneE fails path e).2 = countE fails path e
  | .file n => rfl
  | .dir n cs => by
    have hl := count_pruneL fails (path ++ [n]) cs
    have hm := hasMusic_pruneL fails (path ++ [n]) cs
    rw [pruneE, countE]
    by_cases h1 : hasMusicE (.dir n ((pruneL fails (path ++ [n]) cs).1)) = true
    · rw [if_pos h1]
      rw [hasMusicE_dir, hm] at h1
      rw [if_neg (by rw [hasMusicE_dir]; intro hc; rw [hc.1] at h1; cases h1)]
      rw [hl]
      omega
    · rw [if_neg h1]
      rw [hasMusicE_dir, hm] at h1
      have h1' : hasMusicL cs = false := Bool.not_eq_true _ ▸ h1
      by_cases h2 : fails (path ++ [n]) = true
      · rw [if_pos h2]
        rw [if_neg (by intro hc; rw [hc.2] at h2; cases h2)]
        rw [hl]
        omega
      · rw [if_neg h2]
        have h2' : fails (path ++ [n]) = false := Bool.not_eq_true _ ▸ h2
        rw [if_pos ⟨by rw [hasMusicE_dir]; exact h1', h2'⟩]
        rw [hl]

theorem count_pruneL (fails : List Str → Bool) (path : List Str) :
    ∀ cs : List FSE, (pruneL fails path cs).2 = countL fails path cs
  | [] => rfl
  | e :: t => by
    have he := count_pruneE fails path e
    have ht := count_pruneL fails path t
    rw [pruneL, countL, he, ht]

end

theorem pruneE_none_iff (fails : List Str → Bool) (path : List Str) (n : Str)
    (cs : List FSE) :
    (pruneE fails path (.dir n cs)).1 = none ↔
      (hasMusicE (.dir n cs) = false ∧ fails (path ++ [n]) = false) := by
  have hm := hasMusic_pruneL fails (path ++ [n]) cs
  rw [pruneE]
  by_cases h1 : hasMusicE (.dir n ((pruneL fails (path ++ [n]) cs).1)) = true
  · rw [if_pos h1]
    rw [hasMusicE_dir, hm] at h1
    simp only [hasMusicE_dir]
    constructor
    · intro hc; cases hc
    · intro hc; rw [hc.1] at h1; cases h1
  · rw [if_neg h1]
    rw [hasMusicE_dir, hm] at h1
    have h1' : hasMusicL cs = false := Bool.not_eq_true _ ▸ h1
    by_cases h2 : fails (path ++ [n]) = true
    · rw [if_pos h2]
      simp only [hasMusicE_dir]
      constructor
      · intro hc; cases hc
      · intro hc; rw [hc.2] at h2; cases h2
    · rw [if_neg h2]
      have h2' : fails (path ++ [n]) = false := Bool.not_eq_true _ ▸ h2
      simp only [hasMusicE_dir]
      exact ⟨fun _ => ⟨h1', h2'⟩, fun _ => trivial⟩

theorem pruneE_file (fails : List Str → Bool) (path : List Str) (n : Str) :
    pruneE fails path (.file n) = (some (.file n), 0) := rfl

mutual

theorem hasMusicE_iff :
    ∀ e : FSE, hasMusicE e = true ↔ ∃ nm, FileInTree nm e ∧ isMusic nm = true
  | .file n => by
    constructor
    · intro h; exact ⟨n, FileInTree.file n, h⟩
    · rintro ⟨nm, hin, hmus⟩
      cases hin
      exact hmus
  | .dir m cs => by
    have hl := hasMusicL_iff cs
    rw [hasMusicE_dir, hl]
    constructor
    · rintro ⟨nm, e, hmem, hin, hmus⟩
      exact ⟨nm, FileInTree.dir m hmem hin, hmus⟩
    · rintro ⟨nm, hin, hmus⟩
      cases hin with
      | dir _ hmem hin2 => exact ⟨nm, _, hmem, hin2, hmus⟩

theorem hasMusicL_iff :
    ∀ cs : List FSE, hasMusicL cs = true ↔
      ∃ nm e, e ∈ cs ∧ FileInTree nm e ∧ isMusic nm = true
  | [] => by
    constructor
    · intro h; cases h
    · rintro ⟨nm, e, hmem, _, _⟩; cases hmem
  | e :: t => by
    have he := hasMusicE_iff e
    have ht := hasMusicL_iff t
    rw [hasMusicL, Bool.or_eq_true, he, ht]
    constructor
    · rintro (⟨nm, hin, hm⟩ | ⟨nm, e', hmem, hin, hm⟩)
      · exact ⟨nm, e, List.mem_cons_self e t, hin, hm⟩
      · exact ⟨nm, e', List.mem_cons_of_mem e hmem, hin, hm⟩
    · rintro ⟨nm, e', hmem, hin, hm⟩
      rcases List.mem_cons.mp hmem with rfl | hmem2
      · exact Or.inl ⟨nm, hin, hm⟩
      · exact Or.inr ⟨nm, e', hmem2, hin, hm⟩

end

/-- C9: the prune pass deletes a visited directory (together with its
remaining contents) exactly when its subtree holds no file with a
supported audio extension (case-insensitively) and its deletion does not
fail; a failed deletion is swallowed, leaves the directory in place and
is not counted; the returned count is exactly the number of music-free
strict descendants of the root whose deletion succeeded; the root itself
is never visited.  Concretely, a directory holding only `cover.jpg` is
removed and one holding `x.MP3` below it survives untouched. -/
theorem C9_remove_empty_folders :
    (∀ (fails : List Str → Bool) (path : List Str) (n : Str) (cs : List FSE),
      (pruneE fails path (.dir n cs)).1 = none ↔
        (hasMusicE (.dir n cs) = false ∧ fails (path ++ [n]) = false)) ∧
    (∀ e : FSE, hasMusicE e = true ↔ ∃ nm, FileInTree nm e ∧ isMusic nm = true) ∧
    (∀ (fails : List Str → Bool) (path : List Str) (e : FSE),
      (pruneE fails path e).2 = countE fails path e) ∧
    (∀ (fails : List Str → Bool) (rootName : Str) (cs : List FSE),
      remove_empty_folders fails rootName cs =
        ((pruneL fails [rootName] cs).1, countL fails [rootName] cs)) ∧
    pruneE (fun _ => false) [] (.dir (toCodes "A") [.file (toCodes "cover.jpg")]) =
      (none, 1) ∧
    pruneE (fun _ => false) []
        (.dir (toCodes "A") [.dir (toCodes "B") [.file (toCodes "x.MP3")]]) =
      (some (.dir (toCodes "A") [.dir (toCodes "B") [.file (toCodes "x.MP3")]]), 0) := by
  refine ⟨pruneE_none_iff, hasMusicE_iff, count_pruneE, ?_, rfl, rfl⟩
  intro fails rootName cs
  unfold remove_empty_folders
  have h2 := count_pruneL fails [rootName] cs
  cases hp : pruneL fails [rootName] cs with
  | mk a b =>
    rw [hp] at h2
    simp only at h2
    rw [h2]
